import Mathlib

/-!
Verification of the event-coalescing file watcher (package `watcher` of
note-rags-sync) against its natural-language specification.

The Go source is shallowly embedded: the per-path pending map
(`eventBuffer map[string]*fileEvent`) becomes an association list with
unique keys, timestamps become `Nat` milliseconds, the fsnotify operation
mask becomes a record of five booleans, and the impure environment
(os.Stat, fsnotify.Watcher.Add failures) becomes explicit function
parameters.
-/

set_option autoImplicit false

namespace NoteRagsSync

/-- Models the fsnotify operation mask carried by a raw event: the five
bits `Create`, `Write`, `Remove`, `Rename`, `Chmod`; `event.Op & Bit == Bit`
becomes a field test. -/
structure Op where
  create : Bool
  write : Bool
  remove : Bool
  rename : Bool
  chmod : Bool
deriving DecidableEq, Repr

/-- Models a raw fsnotify event: a path (`event.Name`) and an operation mask. -/
structure RawEvent where
  name : String
  op : Op
deriving DecidableEq, Repr

/-- Models the `fileEvent` record of the watcher (part_001 lines 26-32):
per-path pending-change state with three flags and a last-seen timestamp
(milliseconds). -/
structure FileEvent where
  path : String
  isNew : Bool
  isModified : Bool
  isDeleted : Bool
  lastSeen : Nat
deriving DecidableEq, Repr

/-- The resolved logical event kinds dispatched by the resolution sweep. -/
inductive LogicalEvent where
  | deleted
  | createdEmpty
  | created
  | modified
deriving DecidableEq, Repr

/-- The Go map `map[string]*fileEvent` is modelled as an association list;
reachable states keep keys unique (`bufKeys ... |>.Nodup`). -/
abbrev Buf := List (String × FileEvent)

/-- Map lookup `fe, exists := w.eventBuffer[name]`. -/
def lookupBuf : Buf → String → Option FileEvent
  | [], _ => none
  | (k, v) :: rest, name => if k = name then some v else lookupBuf rest name

/-- Map store `w.eventBuffer[name] = fe`: replaces the binding in place if
the key is present, otherwise appends a fresh binding. -/
def setBuf : Buf → String → FileEvent → Buf
  | [], name, fe => [(name, fe)]
  | (k, v) :: rest, name, fe =>
    if k = name then (name, fe) :: rest else (k, v) :: setBuf rest name fe

/-- Map deletion `delete(w.eventBuffer, path)`. -/
def eraseBuf : Buf → String → Buf
  | [], _ => []
  | (k, v) :: rest, name => if k = name then rest else (k, v) :: eraseBuf rest name

/-- Keys of the pending map. -/
def bufKeys (b : Buf) : List String := b.map Prod.fst

/-- Models the `closed` state of a live `fsnotify.Watcher` together with its
set of registered (Add-ed) paths. -/
structure FsW where
  watched : List String
  closed : Bool
deriving DecidableEq, Repr

/-- Models the `Watcher` struct (part_001 lines 17-24).  The `done` channel
is modelled by whether it has been closed; the debounce timer by its
pending deadline, if armed. -/
structure Watcher where
  path : String
  fsWatcher : Option FsW
  doneClosed : Bool
  eventBuffer : Buf
  debounceTimer : Option Nat
deriving DecidableEq, Repr

/-- Models `New` (part_001 lines 34-40). -/
def New (path : String) : Watcher :=
  { path := path
    fsWatcher := none
    doneClosed := false
    eventBuffer := []
    debounceTimer := none }

/-- The fixed debounce quiet duration: `100*time.Millisecond` (line 155). -/
def debounceWindow : Nat := 100

/-- The stale threshold: `5*time.Second` (line 172), in milliseconds. -/
def staleThreshold : Nat := 5000

/-- Models the impure environment consulted by `bufferEvent`:
`isDir name` is the result of `os.Stat` + `IsDir` (false also covers a
stat error), and `addErr name` tells whether `fsWatcher.Add(name)` fails. -/
structure Env where
  isDir : String → Bool
  addErr : String → Bool

/-- Models the flag-setting block of `bufferEvent` (lines 130-148): each
operation bit present sets the corresponding flag; rename sets `isDeleted`
(treated as deletion of the old name); no bit ever clears a flag. -/
def applyOps (fe : FileEvent) (op : Op) : FileEvent :=
  let fe1 := if op.create then { fe with isNew := true } else fe
  let fe2 := if op.write then { fe1 with isModified := true } else fe1
  let fe3 := if op.remove then { fe2 with isDeleted := true } else fe2
  if op.rename then { fe3 with isDeleted := true } else fe3

/-- Models `fe, exists := w.eventBuffer[event.Name]` followed by the
creation of a fresh record when absent (lines 121-126). -/
def pendingOrFresh (buf : Buf) (name : String) (now : Nat) : FileEvent :=
  match lookupBuf buf name with
  | some fe => fe
  | none => { path := name, isNew := false, isModified := false, isDeleted := false, lastSeen := now }

/-- Models the file-branch of `bufferEvent` (lines 117-148): get-or-create
the path's record, refresh `lastSeen`, set the flags for the operation
bits.  In Go the record is a pointer mutated in place; here the final
record is stored back at the same position. -/
def bufferFileEvent (buf : Buf) (name : String) (op : Op) (now : Nat) : Buf :=
  let fe1 := applyOps { pendingOrFresh buf name now with lastSeen := now } op
  setBuf buf name fe1

/-- Models `fsWatcher.Add(name)` as seen from the watcher state: on
success the path joins the watched set, on failure the error is only
logged (lines 161-163). -/
def fsAdd (addErr : String → Bool) (fw : FsW) (name : String) : FsW :=
  if addErr name then fw else { fw with watched := fw.watched ++ [name] }

/-- Models `handleDirectoryEvent` (lines 158-165): on a Create bit the new
directory is registered with `fsWatcher.Add`; other bits are ignored.
`bufferEvent` only runs from the watch loop, after `Start` has installed
`fsWatcher`, so the `none` branch is unreachable in practice. -/
def handleDirectoryEvent (env : Env) (w : Watcher) (ev : RawEvent) : Watcher :=
  if ev.op.create then
    match w.fsWatcher with
    | some fw => { w with fsWatcher := some (fsAdd env.addErr fw ev.name) }
    | none => w
  else w

/-- Models `strings.HasPrefix` on the underlying characters. -/
def listStarts : List Char → List Char → Bool
  | [], _ => true
  | _ :: _, [] => false
  | p :: ps, c :: cs => p == c && listStarts ps cs

/-- Models `strings.HasPrefix(s, pre)`. -/
def goStartsWith (s pre : String) : Bool := listStarts pre.data s.data

/-- Models `filepath.Ext`: scan the path from the end; stop empty at a
path separator, and return the suffix from the final dot of the last
element.  The scan runs over the reversed character list, accumulating
the suffix seen so far. -/
def goExtAux (acc : List Char) : List Char → List Char
  | [] => []
  | c :: rest =>
    if c = '/' then []
    else if c = '.' then c :: acc
    else goExtAux (c :: acc) rest

/-- Models `filepath.Ext(path)`. -/
def goExt (s : String) : String := ⟨goExtAux [] s.data.reverse⟩

/-- Models `filepath.Base`: strip trailing separators, then keep the last
element; empty input gives `"."` and an all-separator input gives `"/"`. -/
def goBase (s : String) : String :=
  if s = "" then "."
  else
    let r := (s.data.reverse).dropWhile (fun c => c = '/')
    let nameRev := r.takeWhile (fun c => c ≠ '/')
    if nameRev = [] then "/" else ⟨nameRev.reverse⟩

/-- Models `isMarkdownFile` (part_001 lines 237-248): case-sensitive `.md`
extension check, then the hidden-file / tilde swap-file filter on the
base name. -/
def isMarkdownFile (filename : String) : Bool :=
  if goExt filename ≠ ".md" then false
  else
    let base := goBase filename
    if goStartsWith base "." || goStartsWith base "~" then false
    else true

/-- Models `bufferEvent` (part_001 lines 104-156): discard paths that are
neither markdown files nor directories; forward directory events to
`handleDirectoryEvent`; otherwise buffer the file event and restart the
shared debounce timer with the fixed 100 ms quiet duration. -/
def bufferEvent (env : Env) (w : Watcher) (ev : RawEvent) (now : Nat) : Watcher :=
  if ¬ isMarkdownFile ev.name ∧ ¬ env.isDir ev.name then w
  else if env.isDir ev.name then handleDirectoryEvent env w ev
  else
    { w with
      eventBuffer := bufferFileEvent w.eventBuffer ev.name ev.op now
      debounceTimer := some (now + debounceWindow) }

/-- Models the resolution table of `processBufferedEvents`
(lines 177-199), in source order: deleted first, then created-empty,
created, modified; the all-false pattern is only logged. -/
def resolveEvent (fe : FileEvent) : Option LogicalEvent :=
  if fe.isDeleted then some LogicalEvent.deleted
  else if fe.isNew && !fe.isModified then some LogicalEvent.createdEmpty
  else if fe.isNew && fe.isModified then some LogicalEvent.created
  else if fe.isModified then some LogicalEvent.modified
  else none

/-- One iteration of the sweep loop of `processBufferedEvents`
(lines 170-202): state is the remaining map plus the dispatched events;
the entry is deleted from the map in every branch, and a logical event is
appended unless the entry is stale or matches no pattern. -/
def sweepStep (now : Nat) (st : Buf × List (String × LogicalEvent))
    (e : String × FileEvent) : Buf × List (String × LogicalEvent) :=
  if now - e.2.lastSeen > staleThreshold then (eraseBuf st.1 e.1, st.2)
  else
    match resolveEvent e.2 with
    | some le => (eraseBuf st.1 e.1, st.2 ++ [(e.1, le)])
    | none => (eraseBuf st.1 e.1, st.2)

/-- The whole sweep over the pending map: iterate the loop body over every
entry present when the timer fired. -/
def sweepBuffer (buf : Buf) (now : Nat) : Buf × List (String × LogicalEvent) :=
  buf.foldl (sweepStep now) (buf, [])

/-- Models `processBufferedEvents` (part_001 lines 167-203), returning the
post-sweep watcher and the list of dispatched logical events. -/
def processBufferedEvents (w : Watcher) (now : Nat) :
    Watcher × List (String × LogicalEvent) :=
  let res := sweepBuffer w.eventBuffer now
  ({ w with eventBuffer := res.1 }, res.2)

/-- Models `Stop` (part_001 lines 205-213): a nil source makes it a no-op
returning nil; otherwise the done channel is closed and the source is
closed, returning `Close`'s result (`closeErr`). -/
def Stop (closeErr : Option String) (w : Watcher) : Watcher × Option String :=
  match w.fsWatcher with
  | some fw =>
    ({ w with doneClosed := true, fsWatcher := some { fw with closed := true } }, closeErr)
  | none => (w, none)

/-- A directory tree as seen by `filepath.WalkDir`: each node carries the
entry base name returned by `d.Name()`. -/
inductive FsTree where
  | file (name : String)
  | dir (name : String) (children : List FsTree)
deriving Repr

/-- Entry base name, as `d.Name()` reports it. -/
def FsTree.name : FsTree → String
  | .file n => n
  | .dir n _ => n

/-- Directory test, as `d.IsDir()` reports it. -/
def FsTree.isDir : FsTree → Bool
  | .file _ => false
  | .dir _ _ => true

/-- A registration recorded by a successful `fsWatcher.Add(path)` during
the walk: the path, the entry name and whether the entry is a directory. -/
abbrev RegEntry := String × String × Bool

/-- The environment of failures the recursive walk can meet: `rootErr`
models `os.Lstat(root)` failing inside `filepath.WalkDir`, `readErr p`
models `ReadDir(p)` failing on a directory, and `addErr p` models
`fsWatcher.Add(p)` failing. -/
structure WalkEnv where
  rootErr : Bool
  readErr : String → Bool
  addErr : String → Bool

/-- What the `WalkDirFunc` closure may return to `filepath.WalkDir`. -/
inductive WalkAction where
  | cont
  | skipDir
  | fail (msg : String)
deriving DecidableEq, Repr

/-- Models the `WalkDirFunc` closure inside `addRecursive` (part_001
lines 269-291): on an access error it logs and returns nil without
reaching the Add call; a hidden directory other than the root is skipped
with `filepath.SkipDir`; otherwise `fsWatcher.Add` is attempted (second
component true) and nil is returned whatever Add's outcome. -/
def addRecursiveCallback (root path base : String) (isDirEntry hasErr : Bool) :
    WalkAction × Bool :=
  if hasErr then (WalkAction.cont, false)
  else if isDirEntry && goStartsWith base "." && !(path == root) then
    (WalkAction.skipDir, false)
  else (WalkAction.cont, true)

mutual

/-- Models the visit of one entry by `filepath.WalkDir` running the
`addRecursive` callback: call the callback (no error on the first call),
record the Add if it was attempted and succeeded, then for a directory
read its children — a `ReadDir` failure triggers the callback a second
time with the error and the directory's contents are skipped. -/
def walkNode (env : WalkEnv) (root path : String) (t : FsTree) :
    List RegEntry × Option String :=
  match addRecursiveCallback root path t.name t.isDir false with
  | (WalkAction.fail m, _) => ([], some m)
  | (WalkAction.skipDir, _) => ([], none)
  | (WalkAction.cont, addAttempted) =>
    let here : List RegEntry :=
      if addAttempted && !(env.addErr path) then [(path, t.name, t.isDir)] else []
    match t with
    | FsTree.file _ => (here, none)
    | FsTree.dir _ children =>
      if env.readErr path then
        match addRecursiveCallback root path t.name t.isDir true with
        | (WalkAction.fail m, _) => (here, some m)
        | _ => (here, none)
      else
        match walkChildren env root path children with
        | (rs, e) => (here ++ rs, e)

/-- Models the sibling loop of `filepath.WalkDir`: children are visited in
order with `filepath.Join(parent, name)` paths, and a non-SkipDir error
from a child aborts the walk. -/
def walkChildren (env : WalkEnv) (root parent : String) :
    List FsTree → List RegEntry × Option String
  | [] => ([], none)
  | c :: rest =>
    match walkNode env root (parent ++ "/" ++ c.name) c with
    | (rs, some m) => (rs, some m)
    | (rs, none) =>
      match walkChildren env root parent rest with
      | (rs2, e) => (rs ++ rs2, e)

end

/-- Models `addRecursive` (part_001 lines 268-292): `filepath.WalkDir`
from the root.  When `os.Lstat(root)` fails, WalkDir invokes the callback
once with the error (the callback logs and returns nil) and the walk ends
there; a `SkipDir` outcome at top level is reported as nil. -/
def addRecursive (env : WalkEnv) (root : String) (t : FsTree) :
    List RegEntry × Option String :=
  if env.rootErr then
    match addRecursiveCallback root root t.name t.isDir true with
    | (WalkAction.fail m, _) => ([], some m)
    | _ => ([], none)
  else walkNode env root root t

/-- The startup outcomes of `Start` (part_001 lines 48-73): creating the
fsnotify watcher can fail, the recursive registration can fail, and
otherwise the watch loop is launched and `Start` blocks on the done
channel (no error returned at startup). -/
inductive StartOutcome where
  | createFailed
  | addFailed (msg : String)
  | started (regs : List RegEntry)
deriving Repr

/-- Models the startup phase of `Start`: `fsnotify.NewWatcher()` (failure
modelled by `newWatcherFails`), then `addRecursive` on the watch root,
then the blocking watch phase. -/
def goStart (newWatcherFails : Bool) (env : WalkEnv) (root : String) (t : FsTree) :
    StartOutcome :=
  if newWatcherFails then StartOutcome.createFailed
  else
    match addRecursive env root t with
    | (_, some m) => StartOutcome.addFailed m
    | (regs, none) => StartOutcome.started regs

/-- An fsnotify event carrying only the Create bit. -/
def createOp : Op := ⟨true, false, false, false, false⟩

/-- An fsnotify event carrying only the Write bit. -/
def writeOp : Op := ⟨false, true, false, false, false⟩

/-- Modelled from the spec: the ordered resolution table of §4.2 on the
flag triple — deleted wins, then created-empty, created, modified; the
all-false row resolves to nothing. -/
def specResolutionTable (created modified deleted : Bool) : Option LogicalEvent :=
  if deleted then some LogicalEvent.deleted
  else if created && !modified then some LogicalEvent.createdEmpty
  else if created && modified then some LogicalEvent.created
  else if !created && modified then some LogicalEvent.modified
  else none

/-- Modelled from the spec: the outcome of the resolution sweep for one
pending entry — dropped when `now - lastSeen` exceeds the stale
threshold, otherwise resolved through the table. -/
def specDispatch (now : Nat) (e : String × FileEvent) : Option (String × LogicalEvent) :=
  if now - e.2.lastSeen > staleThreshold then none
  else Option.map (fun le => (e.1, le)) (specResolutionTable e.2.isNew e.2.isModified e.2.isDeleted)

/-- Modelled from the spec: the §4.2 filtering rule for a markdown file —
case-sensitive `.md` extension, base name starting with neither the
hidden-file marker nor a tilde. -/
def specQualifiesMarkdown (f : String) : Bool :=
  (goExt f == ".md") && !(goStartsWith (goBase f) ".") && !(goStartsWith (goBase f) "~")

mutual

/-- Modelled from the spec: "recursively register every directory (root
included) with the OS notification source, skipping any directory whose
base name starts with a hidden-file marker (except the root)" — the
directories the Registrar must register, in walk order. -/
def specEligibleDirs (root path : String) (t : FsTree) : List String :=
  match t with
  | FsTree.file _ => []
  | FsTree.dir n children =>
    if goStartsWith n "." && !(path == root) then []
    else path :: specEligibleDirsList root path children

/-- Modelled from the spec: the eligible directories contributed by a list
of sibling subtrees. -/
def specEligibleDirsList (root parent : String) : List FsTree → List String
  | [] => []
  | c :: rest =>
    specEligibleDirs root (parent ++ "/" ++ c.name) c ++ specEligibleDirsList root parent rest

end

/-- The per-entry outcome of the sweep loop as the source computes it:
stale entries dispatch nothing, all others go through `resolveEvent`. -/
def dispatchEntry (now : Nat) (e : String × FileEvent) : Option (String × LogicalEvent) :=
  if now - e.2.lastSeen > staleThreshold then none
  else Option.map (fun le => (e.1, le)) (resolveEvent e.2)

section SweepLemmas

theorem sweepStep_fst (now : Nat) (st : Buf × List (String × LogicalEvent))
    (e : String × FileEvent) : (sweepStep now st e).1 = eraseBuf st.1 e.1 := by
  unfold sweepStep
  split
  · rfl
  · cases resolveEvent e.2 <;> rfl

theorem sweepStep_snd (now : Nat) (st : Buf × List (String × LogicalEvent))
    (e : String × FileEvent) :
    (sweepStep now st e).2 = st.2 ++ (dispatchEntry now e).toList := by
  unfold sweepStep dispatchEntry
  split
  · simp
  · cases resolveEvent e.2 <;> simp

theorem foldl_sweepStep_fst (now : Nat) (l : List (String × FileEvent)) :
    ∀ st : Buf × List (String × LogicalEvent),
      (l.foldl (sweepStep now) st).1 = l.foldl (fun b e => eraseBuf b e.1) st.1 := by
  induction l with
  | nil => intro st; rfl
  | cons e rest ih =>
    intro st
    rw [List.foldl_cons, List.foldl_cons, ih, sweepStep_fst]

theorem eraseBuf_cons_self (k : String) (v : FileEvent) (rest : Buf) :
    eraseBuf ((k, v) :: rest) k = rest := by
  simp [eraseBuf]

theorem foldl_eraseBuf_self (l : Buf) :
    l.foldl (fun b e => eraseBuf b e.1) l = [] := by
  induction l with
  | nil => rfl
  | cons e rest ih =>
    rcases e with ⟨k, v⟩
    rw [List.foldl_cons]
    simpa [eraseBuf_cons_self] using ih

theorem sweepBuffer_fst (buf : Buf) (now : Nat) : (sweepBuffer buf now).1 = [] := by
  unfold sweepBuffer
  rw [foldl_sweepStep_fst]
  exact foldl_eraseBuf_self buf

theorem foldl_sweepStep_snd (now : Nat) (l : List (String × FileEvent)) :
    ∀ st : Buf × List (String × LogicalEvent),
      (l.foldl (sweepStep now) st).2 = st.2 ++ l.filterMap (dispatchEntry now) := by
  induction l with
  | nil => intro st; simp
  | cons e rest ih =>
    intro st
    rw [List.foldl_cons, ih, List.filterMap_cons]
    cases h : dispatchEntry now e <;> simp [sweepStep_snd, h]

theorem sweepBuffer_snd (buf : Buf) (now : Nat) :
    (sweepBuffer buf now).2 = buf.filterMap (dispatchEntry now) := by
  unfold sweepBuffer
  rw [foldl_sweepStep_snd]
  rfl

theorem dispatchEntry_eq_spec (now : Nat) (e : String × FileEvent) :
    dispatchEntry now e = specDispatch now e := by
  rcases e with ⟨p, ⟨q, n, m, d, t⟩⟩
  cases n <;> cases m <;> cases d <;>
    simp [dispatchEntry, specDispatch, resolveEvent, specResolutionTable]

end SweepLemmas

section BufferLemmas

theorem applyOps_eq (fe : FileEvent) (op : Op) :
    applyOps fe op =
      { fe with
        isNew := fe.isNew || op.create
        isModified := fe.isModified || op.write
        isDeleted := fe.isDeleted || (op.remove || op.rename) } := by
  rcases op with ⟨c, wr, rm, rn, ch⟩
  cases c <;> cases wr <;> cases rm <;> cases rn <;> simp [applyOps]

theorem lookupBuf_setBuf_self (buf : Buf) (k : String) (fe : FileEvent) :
    lookupBuf (setBuf buf k fe) k = some fe := by
  induction buf with
  | nil => simp [setBuf, lookupBuf]
  | cons e rest ih =>
    rcases e with ⟨k2, v2⟩
    by_cases h : k2 = k <;> simp [setBuf, lookupBuf, h, ih]

theorem lookupBuf_eq_none_iff (buf : Buf) (k : String) :
    lookupBuf buf k = none ↔ k ∉ bufKeys buf := by
  induction buf with
  | nil => simp [lookupBuf, bufKeys]
  | cons e rest ih =>
    rcases e with ⟨k2, v2⟩
    by_cases h : k2 = k
    · simp [lookupBuf, bufKeys, h, ih]
    · simp [lookupBuf, bufKeys, h, ih]
      tauto

theorem setBuf_notMem (buf : Buf) (k : String) (fe : FileEvent)
    (h : k ∉ bufKeys buf) : setBuf buf k fe = buf ++ [(k, fe)] := by
  induction buf with
  | nil => rfl
  | cons e rest ih =>
    rcases e with ⟨k2, v2⟩
    have hk : ¬ (k2 = k) := by
      intro hh
      exact h (by simp [bufKeys, hh])
    have hrest : k ∉ bufKeys rest := by
      intro hh
      exact h (by simp [bufKeys]; right; simpa [bufKeys] using hh)
    simp [setBuf, hk, ih hrest]

theorem setBuf_setBuf (buf : Buf) (k : String) (fe1 fe2 : FileEvent) :
    setBuf (setBuf buf k fe1) k fe2 = setBuf buf k fe2 := by
  induction buf with
  | nil => simp [setBuf]
  | cons e rest ih =>
    rcases e with ⟨k2, v2⟩
    by_cases h : k2 = k <;> simp [setBuf, h, ih]

theorem bufKeys_setBuf_mem (buf : Buf) (k : String) (fe : FileEvent)
    (h : k ∈ bufKeys buf) : bufKeys (setBuf buf k fe) = bufKeys buf := by
  induction buf with
  | nil => simp [bufKeys] at h
  | cons e rest ih =>
    rcases e with ⟨k2, v2⟩
    by_cases hk : k2 = k
    · simp [setBuf, hk, bufKeys]
    · have : k ∈ bufKeys rest := by
        rcases (by simpa [bufKeys] using h) with h1 | h1
        · exact absurd h1.symm hk
        · simpa [bufKeys] using h1
      have h2 := ih this
      simp only [bufKeys] at h2
      simp [setBuf, hk, bufKeys, h2]

theorem bufKeys_setBuf_notMem (buf : Buf) (k : String) (fe : FileEvent)
    (h : k ∉ bufKeys buf) : bufKeys (setBuf buf k fe) = bufKeys buf ++ [k] := by
  rw [setBuf_notMem buf k fe h]
  simp [bufKeys]

end BufferLemmas

section WalkLemmas

theorem addRecursiveCallback_no_fail (root path base : String) (d e : Bool) (m : String)
    (b : Bool) : addRecursiveCallback root path base d e ≠ (WalkAction.fail m, b) := by
  unfold addRecursiveCallback
  split
  · simp
  · split <;> simp

theorem addRecursiveCallback_cont (root path base : String) (d b : Bool)
    (h : addRecursiveCallback root path base d false = (WalkAction.cont, b)) :
    (d && goStartsWith base "." && !(path == root)) = false ∧ b = true := by
  have h1 : (if (d && goStartsWith base "." && !(path == root)) = true then
      (WalkAction.skipDir, false) else (WalkAction.cont, true)) = (WalkAction.cont, b) := by
    simpa [addRecursiveCallback] using h
  by_cases hc : (d && goStartsWith base "." && !(path == root)) = true
  · rw [if_pos hc] at h1
    simp at h1
  · rw [if_neg hc] at h1
    have hb : b = true := by
      have := congrArg Prod.snd h1
      simpa using this
    exact ⟨by simpa using hc, hb⟩

mutual

theorem walkNode_err (env : WalkEnv) (root path : String) (t : FsTree) :
    (walkNode env root path t).2 = none := by
  rw [walkNode]
  split
  case _ m b heq => exact absurd heq (addRecursiveCallback_no_fail root path t.name t.isDir false m b)
  case _ b heq => rfl
  case _ b heq =>
    cases t with
    | file n => rfl
    | dir n children =>
      dsimp only
      split
      · split
        case _ m b2 heq2 =>
          exact absurd heq2 (addRecursiveCallback_no_fail root path _ _ true m b2)
        case _ => rfl
      · have h := walkChildren_err env root path children
        rcases hw : walkChildren env root path children with ⟨rs, e2⟩
        rw [hw] at h
        simpa [hw] using h

theorem walkChildren_err (env : WalkEnv) (root parent : String) (ts : List FsTree) :
    (walkChildren env root parent ts).2 = none := by
  cases ts with
  | nil => rfl
  | cons c rest =>
    rw [walkChildren]
    have h1 := walkNode_err env root (parent ++ "/" ++ c.name) c
    rcases hw : walkNode env root (parent ++ "/" ++ c.name) c with ⟨rs, e⟩
    rw [hw] at h1
    simp only at h1
    subst h1
    have h2 := walkChildren_err env root parent rest
    rcases hw2 : walkChildren env root parent rest with ⟨rs2, e2⟩
    rw [hw2] at h2
    simp only at h2
    subst h2
    simp [hw, hw2]

end

theorem addRecursiveCallback_skip (root path base : String) (d b : Bool)
    (h : addRecursiveCallback root path base d false = (WalkAction.skipDir, b)) :
    (d && goStartsWith base "." && !(path == root)) = true := by
  by_cases hc : (d && goStartsWith base "." && !(path == root)) = true
  · exact hc
  · exfalso
    simp [addRecursiveCallback, hc] at h

theorem here_mem_hidden (root path dn : String) (g : Bool) (p n : String)
    (hcond : (true && goStartsWith dn "." && !(path == root)) = false)
    (hm : (p, n, true) ∈ (if g = true then ([(path, dn, true)] : List RegEntry) else []))
    (hpre : goStartsWith n "." = true) : p = root := by
  split at hm
  · simp at hm
    obtain ⟨hp, hn⟩ := hm
    subst hp
    subst hn
    simp [hpre] at hcond
    exact hcond
  · simp at hm

mutual

theorem walkNode_hidden (env : WalkEnv) (root path : String) (t : FsTree) :
    ∀ p n : String, (p, n, true) ∈ (walkNode env root path t).1 →
      goStartsWith n "." = true → p = root := by
  intro p n hmem hpre
  rw [walkNode] at hmem
  split at hmem
  case _ m b heq =>
    exact absurd heq (addRecursiveCallback_no_fail root path t.name t.isDir false m b)
  case _ b heq => simp at hmem
  case _ b heq =>
    cases t with
    | file fn =>
      dsimp only at hmem
      split at hmem
      · simp [FsTree.isDir] at hmem
      · simp at hmem
    | dir dn children =>
      dsimp only [FsTree.name, FsTree.isDir] at heq
      obtain ⟨hcond, hb⟩ := addRecursiveCallback_cont root path dn true b heq
      subst hb
      dsimp only at hmem
      split at hmem
      · split at hmem
        case _ m b2 heq2 =>
          exact absurd heq2 (addRecursiveCallback_no_fail root path dn true true m b2)
        case _ =>
          exact here_mem_hidden root path dn _ p n hcond hmem hpre
      · rcases hw : walkChildren env root path children with ⟨rs, e2⟩
        rw [hw] at hmem
        dsimp only at hmem
        rw [List.mem_append] at hmem
        rcases hmem with hm | hm
        · exact here_mem_hidden root path dn _ p n hcond hm hpre
        · exact walkChildren_hidden env root path children p n (by rw [hw]; exact hm) hpre

theorem walkChildren_hidden (env : WalkEnv) (root parent : String) (ts : List FsTree) :
    ∀ p n : String, (p, n, true) ∈ (walkChildren env root parent ts).1 →
      goStartsWith n "." = true → p = root := by
  intro p n hmem hpre
  cases ts with
  | nil => simp [walkChildren] at hmem
  | cons c rest =>
    rw [walkChildren] at hmem
    rcases hw : walkNode env root (parent ++ "/" ++ c.name) c with ⟨rs, e⟩
    have he : e = none := by
      have h0 := walkNode_err env root (parent ++ "/" ++ c.name) c
      rw [hw] at h0
      simpa using h0
    subst he
    rw [hw] at hmem
    rcases hw2 : walkChildren env root parent rest with ⟨rs2, e2⟩
    rw [hw2] at hmem
    dsimp only at hmem
    rw [List.mem_append] at hmem
    rcases hmem with hm | hm
    · exact walkNode_hidden env root (parent ++ "/" ++ c.name) c p n (by rw [hw]; exact hm) hpre
    · exact walkChildren_hidden env root parent rest p n (by rw [hw2]; exact hm) hpre

end

mutual

theorem walkNode_dirs (env : WalkEnv) (root path : String) (t : FsTree)
    (hr : ∀ q, env.readErr q = false) (ha : ∀ q, env.addErr q = false) :
    (walkNode env root path t).1.filterMap
        (fun e : RegEntry => if e.2.2 then some e.1 else none)
      = specEligibleDirs root path t := by
  rw [walkNode]
  split
  case _ m b heq =>
    exact absurd heq (addRecursiveCallback_no_fail root path t.name t.isDir false m b)
  case _ b heq =>
    cases t with
    | file fn =>
      have := addRecursiveCallback_skip root path fn false b heq
      simp at this
    | dir dn children =>
      have hsk := addRecursiveCallback_skip root path dn true b heq
      simp only [Bool.true_and] at hsk
      simp [specEligibleDirs, hsk]
  case _ b heq =>
    cases t with
    | file fn =>
      dsimp only
      split
      · simp [specEligibleDirs, FsTree.isDir]
      · simp [specEligibleDirs]
    | dir dn children =>
      dsimp only [FsTree.name, FsTree.isDir] at heq
      obtain ⟨hcond, hb⟩ := addRecursiveCallback_cont root path dn true b heq
      subst hb
      simp only [Bool.true_and] at hcond
      dsimp only
      rw [hr path]
      rcases hw : walkChildren env root path children with ⟨rs, e2⟩
      have hrec := walkChildren_dirs env root path children hr ha
      rw [hw] at hrec
      dsimp only at hrec
      simp only [Bool.false_eq_true, if_false]
      simp [ha path, List.filterMap_append, hrec, specEligibleDirs, hcond, FsTree.name, FsTree.isDir]

theorem walkChildren_dirs (env : WalkEnv) (root parent : String) (ts : List FsTree)
    (hr : ∀ q, env.readErr q = false) (ha : ∀ q, env.addErr q = false) :
    (walkChildren env root parent ts).1.filterMap
        (fun e : RegEntry => if e.2.2 then some e.1 else none)
      = specEligibleDirsList root parent ts := by
  cases ts with
  | nil => rfl
  | cons c rest =>
    rw [walkChildren]
    rcases hw : walkNode env root (parent ++ "/" ++ c.name) c with ⟨rs, e⟩
    have he : e = none := by
      have h0 := walkNode_err env root (parent ++ "/" ++ c.name) c
      rw [hw] at h0
      simpa using h0
    subst he
    rcases hw2 : walkChildren env root parent rest with ⟨rs2, e2⟩
    have h1 := walkNode_dirs env root (parent ++ "/" ++ c.name) c hr ha
    rw [hw] at h1
    have h2 := walkChildren_dirs env root parent rest hr ha
    rw [hw2] at h2
    dsimp only at h1 h2
    simp [List.filterMap_append, h1, h2, specEligibleDirsList]

end

end WalkLemmas

section DispatchLemmas

theorem dispatchEntry_fst (now : Nat) (e : String × FileEvent) (x : String × LogicalEvent)
    (h : dispatchEntry now e = some x) : x.1 = e.1 := by
  unfold dispatchEntry at h
  split at h
  · cases h
  · rcases Option.map_eq_some'.mp h with ⟨le, _, hx⟩
    rw [← hx]

theorem filter_dispatch_notMem (now : Nat) (buf : Buf) (name : String)
    (h : name ∉ bufKeys buf) :
    (buf.filterMap (dispatchEntry now)).filter (fun x => decide (x.1 = name)) = [] := by
  induction buf with
  | nil => rfl
  | cons e rest ih =>
    have hsplit : ¬ (name = e.1 ∨ name ∈ bufKeys rest) := by
      simpa [bufKeys] using h
    have hne : e.1 ≠ name := fun hh => hsplit (Or.inl hh.symm)
    have hrest : name ∉ bufKeys rest := fun hh => hsplit (Or.inr hh)
    rw [List.filterMap_cons]
    cases hd : dispatchEntry now e with
    | none => exact ih hrest
    | some x =>
      have hx : x.1 ≠ name := by
        rw [dispatchEntry_fst now e x hd]
        exact hne
      rw [List.filter_cons]
      simp only [decide_eq_false hx]
      simpa using ih hrest

end DispatchLemmas

/- Concrete fixtures used by witnesses and counterexamples. -/

/-- An environment in which every path stats as a non-directory and every
registration succeeds. -/
def noDirEnv : Env := { isDir := fun _ => false, addErr := fun _ => false }

/-- An environment in which every path stats as a directory and every
registration succeeds. -/
def allDirEnv : Env := { isDir := fun _ => true, addErr := fun _ => false }

/-- A failure-free walk environment. -/
def cleanWalkEnv : WalkEnv := { rootErr := false, readErr := fun _ => false, addErr := fun _ => false }

/-- A walk environment in which the root itself cannot be traversed
(`os.Lstat` on the root fails) but everything else succeeds. -/
def rootErrEnv : WalkEnv := { rootErr := true, readErr := fun _ => false, addErr := fun _ => false }

/-- A watcher that has started: the fsnotify source exists and is open. -/
def startedW : Watcher :=
  { path := "/v"
    fsWatcher := some { watched := [], closed := false }
    doneClosed := false
    eventBuffer := []
    debounceTimer := none }

/-- A pending record whose deletion flag is already set. -/
def feDel : FileEvent :=
  { path := "/v/a.md", isNew := false, isModified := false, isDeleted := true, lastSeen := 1 }

/-- A started watcher with one pending deleted entry. -/
def bufW : Watcher :=
  { path := "/v"
    fsWatcher := some { watched := [], closed := false }
    doneClosed := false
    eventBuffer := [("/v/a.md", feDel)]
    debounceTimer := none }

/-- A small sample directory tree. -/
def demoTree : FsTree :=
  FsTree.dir "v" [FsTree.dir "sub" [FsTree.file "b.md"], FsTree.file "a.md"]

/-- C1: When the debounce timer fires, the resolution sweep dispatches per
pending entry exactly what the spec's ordered table prescribes: stale
entries (one `lastSeen` more than 5 s old) are dropped with no dispatch,
`deleted` wins, created-without-modified gives `created-empty`, created
with modified gives `created`, modified alone gives `modified`, and the
all-false triple dispatches nothing; in particular a path that received
create then write within one quiet window yields exactly one `created`
event. -/
theorem coalescerResolvesPerFlagTriple :
    (∀ (w : Watcher) (now : Nat),
        (processBufferedEvents w now).2 = w.eventBuffer.filterMap (specDispatch now))
    ∧ (∀ (buf : Buf) (name : String) (t1 t2 now : Nat),
        lookupBuf buf name = none →
        now - t2 ≤ staleThreshold →
        ((sweepBuffer (bufferFileEvent (bufferFileEvent buf name createOp t1)
              name writeOp t2) now).2).filter (fun x => decide (x.1 = name))
          = [(name, LogicalEvent.created)]) := by
  constructor
  · intro w now
    unfold processBufferedEvents
    simp only [sweepBuffer_snd]
    rw [show dispatchEntry now = specDispatch now from funext (fun e => dispatchEntry_eq_spec now e)]
  · intro buf name t1 t2 now hnone hstale
    have hnotmem : name ∉ bufKeys buf := (lookupBuf_eq_none_iff buf name).mp hnone
    have hfresh : pendingOrFresh buf name t1 =
        { path := name, isNew := false, isModified := false, isDeleted := false, lastSeen := t1 } := by
      unfold pendingOrFresh
      rw [hnone]
    have hb1 : bufferFileEvent buf name createOp t1 =
        setBuf buf name
          { path := name, isNew := true, isModified := false, isDeleted := false, lastSeen := t1 } := by
      unfold bufferFileEvent
      rw [hfresh]
      simp [applyOps_eq, createOp]
    have hb2 : bufferFileEvent (bufferFileEvent buf name createOp t1) name writeOp t2 =
        buf ++ [(name,
          { path := name, isNew := true, isModified := true, isDeleted := false, lastSeen := t2 })] := by
      rw [hb1]
      unfold bufferFileEvent
      have hl : pendingOrFresh (setBuf buf name
          { path := name, isNew := true, isModified := false, isDeleted := false, lastSeen := t1 })
          name t2 =
          { path := name, isNew := true, isModified := false, isDeleted := false, lastSeen := t1 } := by
        unfold pendingOrFresh
        rw [lookupBuf_setBuf_self]
      rw [hl, setBuf_setBuf]
      rw [setBuf_notMem buf name _ hnotmem]
      simp [applyOps_eq, writeOp]
    rw [hb2, sweepBuffer_snd, List.filterMap_append, List.filter_append]
    rw [filter_dispatch_notMem now buf name hnotmem]
    have hd : dispatchEntry now (name,
        { path := name, isNew := true, isModified := true, isDeleted := false, lastSeen := t2 })
        = some (name, LogicalEvent.created) := by
      unfold dispatchEntry
      rw [if_neg (by simpa using Nat.not_lt.mpr hstale)]
      simp [resolveEvent]
    simp [hd]

/-- C1 witness: create at time 0 then write at time 10 on a fresh path,
sweep firing at 110, dispatches exactly one `created` event for the path. -/
theorem coalescerResolvesPerFlagTriple_w :
    lookupBuf [] "/v/a.md" = none
    ∧ 110 - 10 ≤ staleThreshold
    ∧ ((sweepBuffer (bufferFileEvent (bufferFileEvent [] "/v/a.md" createOp 0)
          "/v/a.md" writeOp 10) 110).2).filter (fun x => decide (x.1 = "/v/a.md"))
        = [("/v/a.md", LogicalEvent.created)] :=
  ⟨rfl, by decide, coalescerResolvesPerFlagTriple.2 [] "/v/a.md" 0 10 110 rfl (by decide)⟩

/-- C2: Ingesting a qualifying markdown-file raw event sets exactly the
flags for the operation bits present (create sets `isNew`, write sets
`isModified`, remove and rename set `isDeleted`), never clears a flag
already set, refreshes `lastSeen`, and unconditionally rearms the single
shared debounce timer with the fixed 100 ms quiet duration. -/
theorem ingestSetsFlagsAndRestartsTimer (env : Env) (w : Watcher) (name : String)
    (op : Op) (now : Nat)
    (hmd : isMarkdownFile name = true) (hdir : env.isDir name = false) :
    lookupBuf (bufferEvent env w ⟨name, op⟩ now).eventBuffer name
      = some { path := (pendingOrFresh w.eventBuffer name now).path
               isNew := (pendingOrFresh w.eventBuffer name now).isNew || op.create
               isModified := (pendingOrFresh w.eventBuffer name now).isModified || op.write
               isDeleted := (pendingOrFresh w.eventBuffer name now).isDeleted
                              || (op.remove || op.rename)
               lastSeen := now }
    ∧ (bufferEvent env w ⟨name, op⟩ now).debounceTimer = some (now + debounceWindow) := by
  have hbe : bufferEvent env w ⟨name, op⟩ now =
      { w with eventBuffer := bufferFileEvent w.eventBuffer name op now
               debounceTimer := some (now + debounceWindow) } := by
    unfold bufferEvent
    simp [hmd, hdir]
  rw [hbe]
  constructor
  · unfold bufferFileEvent
    rw [lookupBuf_setBuf_self]
    simp [applyOps_eq]
  · rfl

/-- C2 witness: a create event for a fresh markdown path at time 7 stores
the created flag and arms the timer to fire at 107. -/
theorem ingestSetsFlagsAndRestartsTimer_w :
    isMarkdownFile "/v/a.md" = true
    ∧ lookupBuf (bufferEvent noDirEnv (New "/v") ⟨"/v/a.md", createOp⟩ 7).eventBuffer "/v/a.md"
        = some { path := "/v/a.md", isNew := true, isModified := false, isDeleted := false,
                 lastSeen := 7 }
    ∧ (bufferEvent noDirEnv (New "/v") ⟨"/v/a.md", createOp⟩ 7).debounceTimer = some 107 := by
  have h := ingestSetsFlagsAndRestartsTimer noDirEnv (New "/v") "/v/a.md" createOp 7 (by decide) rfl
  exact ⟨by decide, by simpa [pendingOrFresh, lookupBuf, New, createOp, debounceWindow] using h⟩

/-- C3: After one complete resolution sweep the pending set is empty:
every entry present when the timer fired is removed during that sweep,
whether it was dispatched, dropped as stale, or logged as an unknown
pattern, so no entry persists across two consecutive sweeps. -/
theorem sweepEmptiesPendingSet (w : Watcher) (now : Nat) :
    (processBufferedEvents w now).1.eventBuffer = [] := by
  unfold processBufferedEvents
  simp [sweepBuffer_fst]

/-- C4: The pending set keeps at most one entry per path: a qualifying
event for an already-pending path leaves the key set unchanged and
refreshes that entry's `lastSeen` to now, a qualifying event for a fresh
path adds exactly one entry keyed by that path, and key uniqueness is
preserved either way. -/
theorem pendingSetOneEntryPerPath (env : Env) (w : Watcher) (name : String) (op : Op)
    (now : Nat)
    (hnodup : (bufKeys w.eventBuffer).Nodup)
    (hmd : isMarkdownFile name = true) (hdir : env.isDir name = false) :
    (bufKeys (bufferEvent env w ⟨name, op⟩ now).eventBuffer).Nodup
    ∧ (name ∈ bufKeys w.eventBuffer →
        bufKeys (bufferEvent env w ⟨name, op⟩ now).eventBuffer = bufKeys w.eventBuffer
        ∧ Option.map FileEvent.lastSeen
            (lookupBuf (bufferEvent env w ⟨name, op⟩ now).eventBuffer name) = some now)
    ∧ (name ∉ bufKeys w.eventBuffer →
        bufKeys (bufferEvent env w ⟨name, op⟩ now).eventBuffer
          = bufKeys w.eventBuffer ++ [name]) := by
  have hbe : bufferEvent env w ⟨name, op⟩ now =
      { w with eventBuffer := bufferFileEvent w.eventBuffer name op now
               debounceTimer := some (now + debounceWindow) } := by
    unfold bufferEvent
    simp [hmd, hdir]
  rw [hbe]
  unfold bufferFileEvent
  refine ⟨?_, ?_, ?_⟩
  · by_cases hm : name ∈ bufKeys w.eventBuffer
    · rw [bufKeys_setBuf_mem _ _ _ hm]
      exact hnodup
    · rw [bufKeys_setBuf_notMem _ _ _ hm]
      simp [List.nodup_append, hnodup, hm]
  · intro hm
    refine ⟨bufKeys_setBuf_mem _ _ _ hm, ?_⟩
    rw [lookupBuf_setBuf_self]
    simp [applyOps_eq]
  · intro hm
    exact bufKeys_setBuf_notMem _ _ _ hm

/-- C4 witness: a write for the already-pending path keeps the single key
and refreshes `lastSeen`; a write for a fresh path adds exactly that key. -/
theorem pendingSetOneEntryPerPath_w :
    (bufKeys (bufferEvent noDirEnv bufW ⟨"/v/a.md", writeOp⟩ 9).eventBuffer = ["/v/a.md"]
     ∧ Option.map FileEvent.lastSeen
         (lookupBuf (bufferEvent noDirEnv bufW ⟨"/v/a.md", writeOp⟩ 9).eventBuffer "/v/a.md")
        = some 9)
    ∧ bufKeys (bufferEvent noDirEnv (New "/v") ⟨"/v/a.md", writeOp⟩ 9).eventBuffer
        = ["/v/a.md"] := by
  constructor
  · have h := (pendingSetOneEntryPerPath noDirEnv bufW "/v/a.md" writeOp 9
      (by decide) (by decide) rfl).2.1 (by decide)
    simpa [bufW, bufKeys, feDel] using h
  · have h := (pendingSetOneEntryPerPath noDirEnv (New "/v") "/v/a.md" writeOp 9
      (by decide) (by decide) rfl).2.2 (by decide)
    simpa [New, bufKeys] using h

/-- C5: A path qualifies as a markdown file exactly when its extension is
the case-sensitive string `.md` and its base name starts with neither `.`
nor `~`; a raw event whose path is neither a qualifying markdown file nor
a directory is discarded silently, leaving the whole watcher state —
pending set and debounce timer included — unchanged. -/
theorem markdownFilterAndSilentDiscard :
    (∀ f : String, isMarkdownFile f = specQualifiesMarkdown f)
    ∧ (∀ (env : Env) (w : Watcher) (ev : RawEvent) (now : Nat),
        isMarkdownFile ev.name = false → env.isDir ev.name = false →
        bufferEvent env w ev now = w) := by
  constructor
  · intro f
    unfold isMarkdownFile specQualifiesMarkdown
    by_cases h1 : goExt f = ".md"
    · by_cases h2 : goStartsWith (goBase f) "." = true
      · simp [h1, h2]
      · by_cases h3 : goStartsWith (goBase f) "~" = true
        · simp [h1, h2, h3]
        · simp [h1, h2, h3]
    · simp [h1]
  · intro env w ev now h1 h2
    unfold bufferEvent
    rw [if_pos ⟨by simp [h1], by simp [h2]⟩]

/-- C5 witness: a write event for a non-markdown, non-directory path is a
no-op on the watcher state. -/
theorem markdownFilterAndSilentDiscard_w :
    isMarkdownFile "/v/x.txt" = false
    ∧ bufferEvent noDirEnv (New "/v") ⟨"/v/x.txt", writeOp⟩ 3 = New "/v" :=
  ⟨by decide,
   markdownFilterAndSilentDiscard.2 noDirEnv (New "/v") ⟨"/v/x.txt", writeOp⟩ 3 (by decide) rfl⟩

/-- C6 counterexample: the claim says the registrar never registers a
hidden directory (other than the root), also for the incremental
registration on a directory-create event — but `handleDirectoryEvent` has
no hidden-name check, so creating `/v/.obsidian` under the watch root `/v`
registers it. -/
theorem hiddenDirRegisteredIncrementally :
    (bufferEvent allDirEnv startedW ⟨"/v/.obsidian", createOp⟩ 0).fsWatcher
      = some { watched := ["/v/.obsidian"], closed := false }
    ∧ goStartsWith (goBase "/v/.obsidian") "." = true
    ∧ "/v/.obsidian" ≠ "/v" := by
  refine ⟨by decide, by decide, by decide⟩

/-- C6 (amended): the initial recursive walk registers every directory
reachable without entering a hidden non-root directory and registers no
hidden directory other than the root; the incremental registration on a
directory-create event, however, registers the created directory
unconditionally, with no hidden-name check. -/
theorem registrarHiddenPolicyAmended :
    (∀ (env : WalkEnv) (root : String) (t : FsTree) (p n : String),
        (p, n, true) ∈ (addRecursive env root t).1 → goStartsWith n "." = true → p = root)
    ∧ (∀ (env : WalkEnv) (root : String) (t : FsTree),
        env.rootErr = false → (∀ q, env.readErr q = false) → (∀ q, env.addErr q = false) →
        (addRecursive env root t).1.filterMap
            (fun e : RegEntry => if e.2.2 then some e.1 else none)
          = specEligibleDirs root root t)
    ∧ (∀ (env : Env) (w : Watcher) (ev : RawEvent) (fw : FsW),
        w.fsWatcher = some fw → ev.op.create = true → env.addErr ev.name = false →
        (handleDirectoryEvent env w ev).fsWatcher
          = some { fw with watched := fw.watched ++ [ev.name] }) := by
  refine ⟨?_, ?_, ?_⟩
  · intro env root t p n hmem hpre
    unfold addRecursive at hmem
    split at hmem
    · split at hmem
      · simp at hmem
      · simp at hmem
    · exact walkNode_hidden env root root t p n hmem hpre
  · intro env root t hroot hr ha
    unfold addRecursive
    rw [if_neg (by simp [hroot])]
    exact walkNode_dirs env root root t hr ha
  · intro env w ev fw hfw hc hadd
    unfold handleDirectoryEvent
    rw [if_pos hc, hfw]
    simp [fsAdd, hadd]

/-- C6 witness: the hidden-exclusion holds on a walk whose root is itself
hidden; the completeness equation holds on a failure-free walk of a small
tree; the incremental registration appends the created directory. -/
theorem registrarHiddenPolicyAmended_w :
    ("/v" : String) = "/v"
    ∧ (addRecursive cleanWalkEnv "/v" demoTree).1.filterMap
        (fun e : RegEntry => if e.2.2 then some e.1 else none)
        = specEligibleDirs "/v" "/v" demoTree
    ∧ (handleDirectoryEvent noDirEnv startedW ⟨"/v/new", createOp⟩).fsWatcher
        = some { watched := ["/v/new"], closed := false } := by
  refine ⟨?_, ?_, ?_⟩
  · exact registrarHiddenPolicyAmended.1 cleanWalkEnv "/v" (FsTree.dir ".v" []) "/v" ".v"
      (by decide) (by decide)
  · exact registrarHiddenPolicyAmended.2.1 cleanWalkEnv "/v" demoTree rfl
      (fun _ => rfl) (fun _ => rfl)
  · have h := registrarHiddenPolicyAmended.2.2 noDirEnv startedW ⟨"/v/new", createOp⟩
      { watched := [], closed := false } rfl rfl rfl
    simpa using h

/-- C7 evidence: `addRecursive` never returns an error — its WalkDir
callback logs every access error (the root's included) and returns nil —
so `Start` can only fail when creating the fsnotify watcher; in
particular, with an untraversable root and a healthy event source,
startup proceeds with no error and zero registered directories, where the
claim (and the function's own doc comment) demands an error. -/
theorem startNeverFailsOnTraversal :
    (∀ (env : WalkEnv) (root : String) (t : FsTree), (addRecursive env root t).2 = none)
    ∧ goStart false rootErrEnv "/v" demoTree = StartOutcome.started [] := by
  constructor
  · intro env root t
    unfold addRecursive
    split
    · split
      case _ m b heq =>
        exact absurd heq (addRecursiveCallback_no_fail root root t.name t.isDir true m b)
      case _ => rfl
    · exact walkNode_err env root root t
  · rfl

/-- C8: Calling `Stop` before `Start` (nil source) is a no-op returning
nil with the watcher state untouched; calling it with a live source
closes the done channel — unblocking `Start`'s wait — marks the source
closed, and returns `Close`'s result. -/
theorem stopSafeBeforeStart :
    (∀ (w : Watcher) (closeErr : Option String),
        w.fsWatcher = none → Stop closeErr w = (w, none))
    ∧ (∀ (w : Watcher) (closeErr : Option String) (fw : FsW),
        w.fsWatcher = some fw →
        (Stop closeErr w).1.doneClosed = true
        ∧ (Stop closeErr w).1.fsWatcher = some { fw with closed := true }
        ∧ (Stop closeErr w).2 = closeErr) := by
  constructor
  · intro w closeErr h
    unfold Stop
    rw [h]
  · intro w closeErr fw h
    unfold Stop
    rw [h]
    exact ⟨rfl, rfl, rfl⟩

/-- C8 witness: stopping a never-started watcher returns it unchanged
with nil; stopping a started watcher closes done and the source and
propagates the close result. -/
theorem stopSafeBeforeStart_w :
    Stop none (New "/v") = (New "/v", none)
    ∧ (Stop (some "boom") startedW).1.doneClosed = true
    ∧ (Stop (some "boom") startedW).1.fsWatcher = some { watched := [], closed := true }
    ∧ (Stop (some "boom") startedW).2 = some "boom" := by
  refine ⟨stopSafeBeforeStart.1 (New "/v") none rfl, ?_⟩
  have h := stopSafeBeforeStart.2 startedW (some "boom") { watched := [], closed := false } rfl
  simpa using h

/-- C10: The three pending flags are monotone — no later raw event for
the same path clears a flag already set — and once a remove or rename has
set `isDeleted`, any further sequence of buffered events on that path in
the same window still leaves an entry that resolves to `deleted`. -/
theorem deletedFlagWinsInWindow :
    (∀ (fe : FileEvent) (op : Op),
        (fe.isNew = true → (applyOps fe op).isNew = true)
        ∧ (fe.isModified = true → (applyOps fe op).isModified = true)
        ∧ (fe.isDeleted = true → (applyOps fe op).isDeleted = true))
    ∧ (∀ (evs : List (Op × Nat)) (buf : Buf) (name : String) (fe : FileEvent),
        lookupBuf buf name = some fe → fe.isDeleted = true →
        ∃ fe2,
          lookupBuf (evs.foldl (fun b p => bufferFileEvent b name p.1 p.2) buf) name = some fe2
          ∧ fe2.isDeleted = true
          ∧ resolveEvent fe2 = some LogicalEvent.deleted) := by
  constructor
  · intro fe op
    refine ⟨?_, ?_, ?_⟩ <;> intro h <;> simp [applyOps_eq, h]
  · intro evs
    induction evs with
    | nil =>
      intro buf name fe hl hd
      exact ⟨fe, hl, hd, by simp [resolveEvent, hd]⟩
    | cons p rest ih =>
      intro buf name fe hl hd
      rw [List.foldl_cons]
      have hl2 : lookupBuf (bufferFileEvent buf name p.1 p.2) name
          = some (applyOps { fe with lastSeen := p.2 } p.1) := by
        unfold bufferFileEvent
        have hpf : pendingOrFresh buf name p.2 = fe := by
          unfold pendingOrFresh
          rw [hl]
        rw [hpf]
        exact lookupBuf_setBuf_self buf name _
      have hd2 : (applyOps { fe with lastSeen := p.2 } p.1).isDeleted = true := by
        simp [applyOps_eq, hd]
      exact ih (bufferFileEvent buf name p.1 p.2) name _ hl2 hd2

/-- A pending record with all three flags set. -/
def feAll : FileEvent :=
  { path := "/v/a.md", isNew := true, isModified := true, isDeleted := true, lastSeen := 2 }

/-- C10 witness: no flag of an all-set record is cleared by a further
create event, and with a deleted entry already pending, a later create
and write in the same window leave an entry that still resolves to
`deleted`. -/
theorem deletedFlagWinsInWindow_w :
    (applyOps feAll createOp).isNew = true
    ∧ (applyOps feAll createOp).isModified = true
    ∧ (applyOps feAll createOp).isDeleted = true
    ∧ ∃ fe2,
        lookupBuf ([(createOp, 5), (writeOp, 6)].foldl
            (fun b p => bufferFileEvent b "/v/a.md" p.1 p.2) [("/v/a.md", feDel)]) "/v/a.md"
          = some fe2
        ∧ fe2.isDeleted = true
        ∧ resolveEvent fe2 = some LogicalEvent.deleted :=
  ⟨(deletedFlagWinsInWindow.1 feAll createOp).1 rfl,
   (deletedFlagWinsInWindow.1 feAll createOp).2.1 rfl,
   (deletedFlagWinsInWindow.1 feAll createOp).2.2 rfl,
   deletedFlagWinsInWindow.2 [(createOp, 5), (writeOp, 6)] [("/v/a.md", feDel)] "/v/a.md" feDel
     rfl rfl⟩

end NoteRagsSync
